import Mathlib

/-!
Verification of the collision-graph / variation-repair pipeline
(obj2string API surface: WFObjectToString.cpp).

The C++ entry points are shallowly embedded as Lean functions.  External
collaborators that the entry points consume opaquely (the collision
detector, the stochastic graph-to-text converter, the Wiggle solver pass,
the grammar check, the object generator and the file exporter) are either
abstracted as function parameters, or, where a claim depends on their
behaviour and their sources are not available, modelled from the spec
(each such definition carries a doc comment saying so).
-/

/-! ## Basic list and string utilities mirroring the C++ string operations -/

/-- Sentinel value (unsigned)(-1) used for unlabeled edge types. -/
def UINT_MAX : Nat := 4294967295

/-- Modulus of the C++ size_t type. -/
def SIZE_T_MOD : Nat := 18446744073709551616

/-- Wrapping subtraction on size_t, as performed by expressions such as
outFileName.size() - 5 in the C++ code. -/
def sizeTSub (a b : Nat) : Nat := (a + SIZE_T_MOD - b) % SIZE_T_MOD

theorem sizeTSub_of_le (a b : Nat) (hba : b ≤ a) (ha : a < SIZE_T_MOD) :
    sizeTSub a b = a - b := by
  unfold sizeTSub SIZE_T_MOD
  unfold SIZE_T_MOD at ha
  omega

/-- Index of the last character satisfying p, mirroring
std::string::find_last_of (none plays the role of npos). -/
def lastIdxP : List Char → (Char → Bool) → Option Nat
  | [], _ => none
  | c :: cs, p =>
    match lastIdxP cs p with
    | some i => some (i + 1)
    | none => if p c then some 0 else none

theorem lastIdxP_lt_length (s : List Char) (p : Char → Bool) (i : Nat)
    (h : lastIdxP s p = some i) : i < s.length := by
  induction s generalizing i with
  | nil => simp [lastIdxP] at h
  | cons c cs ih =>
    simp only [lastIdxP] at h
    cases hcs : lastIdxP cs p with
    | some j =>
      rw [hcs] at h
      have := ih j hcs
      simp only [Option.some.injEq] at h
      simp [← h, List.length_cons]
      omega
    | none =>
      rw [hcs] at h
      by_cases hc : p c
      · simp [hc] at h
        simp [← h]
      · simp [hc] at h

theorem lastIdxP_of_getLast (s : List Char) (p : Char → Bool)
    (hne : s ≠ []) (hlast : ∃ c, s.getLast? = some c ∧ p c = true) :
    lastIdxP s p = some (s.length - 1) := by
  induction s with
  | nil => exact absurd rfl hne
  | cons a t ih =>
    obtain ⟨c, hc, hpc⟩ := hlast
    by_cases ht : t = []
    · subst ht
      simp [List.getLast?] at hc
      subst hc
      simp [lastIdxP, hpc]
    · have hlast' : t.getLast? = some c := by
        rcases t with _ | ⟨b, t2⟩
        · exact absurd rfl ht
        · rwa [List.getLast?_cons_cons] at hc
      have := ih ht ⟨c, hlast', hpc⟩
      simp only [lastIdxP, this, List.length_cons]
      have : 1 ≤ t.length := List.length_pos.mpr ht
      congr 1
      omega

/-- getline(ss, line) on a character stream: the text up to the first line
break, and the rest of the stream.  On an exhausted stream the extracted
line is empty, as with std::getline on a stream at end of file. -/
def getLine : List Char → List Char × List Char
  | [] => ([], [])
  | c :: cs =>
    if c = '\n' then ([], cs)
    else
      let r := getLine cs
      (c :: r.1, r.2)

/-- The k-th line of the stream, counting getline calls from 0. -/
def lineAt (s : List Char) : Nat → List Char
  | 0 => (getLine s).1
  | k + 1 => lineAt (getLine s).2 k

/-- Value of a decimal digit string. -/
def digitsToNat (ds : List Char) : Nat :=
  ds.foldl (fun a c => a * 10 + (c.toNat - 48)) 0

/-- The number of values of the C++ unsigned int type. -/
def UINT_MOD : Nat := 4294967296

/-- One extraction of operator>> for unsigned int: skip whitespace, then
read an optional single plus or minus sign and a maximal digit run.  The
field converts per strtoull (so a minus sign negates the digit value in
64-bit arithmetic, and a digit value of 2 to the 64 or more is out of
range); the extraction fails when no digit follows the optional sign or
when the converted value is not representable as a 32-bit unsigned.
Returns the extracted value and the rest of the stream. -/
def extractUInt (s : List Char) : Option (Nat × List Char) :=
  let t := s.dropWhile (fun c => c.isWhitespace)
  let hasSign := t.head? == some '+' || t.head? == some '-'
  let neg := t.head? == some '-'
  let body := if hasSign then t.drop 1 else t
  let ds := body.takeWhile (fun c => c.isDigit)
  if ds.isEmpty then none
  else
    let d := digitsToNat ds
    if SIZE_T_MOD ≤ d then none
    else
      let v := if neg then (SIZE_T_MOD - d) % SIZE_T_MOD else d
      if UINT_MOD ≤ v then none
      else some (v, body.drop ds.length)

/-- Repeated operator>> extraction, stopping at the first failure. -/
def parseNatsAux : Nat → List Char → List Nat
  | 0, _ => []
  | fuel + 1, s =>
    match extractUInt s with
    | none => []
    | some r => r.1 :: parseNatsAux fuel r.2

/-- All unsigned values extracted from a line by repeated operator>>,
stopping at the first failed extraction. -/
def parseNats (s : List Char) : List Nat := parseNatsAux (s.length + 1) s

/-! ## Graph: compact adjacency (CSR) representation

The Graph class itself (Graph.cpp) is not among the sources; its
construction and conversion operations are modelled from the spec. -/

structure Graph where
  intervals : List Nat
  adjacencyKeys : List Nat
  adjacencyVals : List Nat

/-- Number of nodes: the interval (offset) array has size N+1. -/
def numNodes (g : Graph) : Nat := g.intervals.length - 1

/-- The stored directed edge pairs of a graph, key/value arrays zipped. -/
def graphEdges (g : Graph) : List (Nat × Nat) :=
  g.adjacencyKeys.zip g.adjacencyVals

/-- Row-major list of the positions holding 1 in a dense n x n matrix. -/
def edgeListOfMatrix (m : Nat → Nat → Nat) (n : Nat) : List (Nat × Nat) :=
  ((List.range n).map
    (fun i => ((List.range n).filter (fun j => m i j == 1)).map (fun j => (i, j)))).flatten

/-- Modelled from the spec: Graph.fromAdjacencyMatrix (Graph.cpp is not
among the sources).  Every 1 at (i,j) of a dense n x n matrix becomes a
stored edge; the interval array holds the CSR row offsets. -/
def fromAdjacencyMatrix (m : Nat → Nat → Nat) (n : Nat) : Graph :=
  ⟨(List.range (n + 1)).map
      (fun i => ((edgeListOfMatrix m n).filter (fun e => e.1 < i)).length),
   (edgeListOfMatrix m n).map Prod.fst,
   (edgeListOfMatrix m n).map Prod.snd⟩

/-- Modelled from the spec: Graph.toAdjacencyMatrix (Graph.cpp is not
among the sources).  The dense matrix holds 1 exactly at the stored edge
positions. -/
def toAdjacencyMatrix (g : Graph) : Nat → Nat → Nat :=
  fun i j => if (i, j) ∈ graphEdges g then 1 else 0

theorem mem_edgeListOfMatrix (m : Nat → Nat → Nat) (n i j : Nat) :
    (i, j) ∈ edgeListOfMatrix m n ↔ i < n ∧ j < n ∧ m i j = 1 := by
  simp only [edgeListOfMatrix, List.mem_flatten, List.mem_map, List.mem_filter,
    List.mem_range]
  constructor
  · rintro ⟨l, ⟨i', hi', rfl⟩, hmem⟩
    rcases List.mem_map.mp hmem with ⟨j', hj', hpair⟩
    rcases List.mem_filter.mp hj' with ⟨hj'r, hj'm⟩
    obtain ⟨rfl, rfl⟩ : i' = i ∧ j' = j := by
      constructor <;> [exact (Prod.mk.injEq _ _ _ _ ▸ hpair).1;
        exact (Prod.mk.injEq _ _ _ _ ▸ hpair).2]
    exact ⟨hi', List.mem_range.mp hj'r, by exact_mod_cast beq_iff_eq.mp hj'm⟩
  · rintro ⟨hi, hj, hm⟩
    refine ⟨((List.range n).filter (fun j => m i j == 1)).map (fun j => (i, j)),
      ⟨i, hi, rfl⟩, ?_⟩
    exact List.mem_map.mpr ⟨j, List.mem_filter.mpr
      ⟨List.mem_range.mpr hj, by simp [hm]⟩, rfl⟩

theorem graphEdges_fromAdjacencyMatrix (m : Nat → Nat → Nat) (n : Nat) :
    graphEdges (fromAdjacencyMatrix m n) = edgeListOfMatrix m n := by
  simp only [graphEdges, fromAdjacencyMatrix, List.zip_map']
  simp

/-- Claim C5: for every symmetric 0/1 adjacency matrix M of size n x n,
toAdjacencyMatrix (fromAdjacencyMatrix M) equals M: the Graph round trip
through the compact adjacency representation is the identity on symmetric
0/1 matrices. -/
theorem toAdjacencyMatrix_fromAdjacencyMatrix
    (m : Nat → Nat → Nat) (n : Nat)
    (hsym : ∀ i < n, ∀ j < n, m i j = m j i)
    (h01 : ∀ i < n, ∀ j < n, m i j = 0 ∨ m i j = 1) :
    ∀ i < n, ∀ j < n, toAdjacencyMatrix (fromAdjacencyMatrix m n) i j = m i j := by
  intro i hi j hj
  unfold toAdjacencyMatrix
  rw [graphEdges_fromAdjacencyMatrix]
  rcases h01 i hi j hj with h0 | h1
  · rw [if_neg, h0]
    intro hmem
    rw [mem_edgeListOfMatrix] at hmem
    omega
  · rw [if_pos, h1]
    exact (mem_edgeListOfMatrix m n i j).mpr ⟨hi, hj, h1⟩

/-- Concrete symmetric 0/1 matrix used to instantiate the round-trip law. -/
def mWitness : Nat → Nat → Nat := fun i j => if i + j = 1 then 1 else 0

theorem toAdjacencyMatrix_fromAdjacencyMatrix_witness :
    (∀ i < 2, ∀ j < 2, mWitness i j = mWitness j i) ∧
    (∀ i < 2, ∀ j < 2, mWitness i j = 0 ∨ mWitness i j = 1) ∧
    toAdjacencyMatrix (fromAdjacencyMatrix mWitness 2) 0 1 = mWitness 0 1 := by
  refine ⟨by decide, by decide, ?_⟩
  exact toAdjacencyMatrix_fromAdjacencyMatrix mWitness 2 (by decide) (by decide)
    0 (by decide) 1 (by decide)

/-! ## WFObjectToStrings (part_001 lines 51-87)

The object and its collision graph enter the function only through the
connectivity test and through the stochastic converter draws, so they are
abstracted into a connectivity flag and a stream of samples (draw number
i yields the structural text and the node-id text of the i-th converter
call). -/

/-- result.substr(0, result.find_last_of of a line break): everything
strictly before the last line break, the whole string when there is
none. -/
def takeToLastNL (s : List Char) : List Char :=
  match lastIdxP s (fun c => c == '\n') with
  | none => s
  | some i => s.take i

/-- Left-nested concatenation of the first n draws. -/
def catSamples (f : Nat → List Char) : Nat → List Char
  | 0 => []
  | n + 1 => catSamples f n ++ f n

/-- WFObjectToStrings: empty text on a disconnected graph; otherwise the
base draw plus ten further draws are concatenated, and, under
appendNodeIds, the concatenated node-id text is appended truncated at its
last line break. -/
def WFObjectToStrings (connected : Bool)
    (sample : Nat → List Char × List Char) (appendNodeIds : Bool) : List Char :=
  if connected = false then []
  else
    let acc := (List.range 10).foldl
      (fun acc i => (acc.1 ++ (sample (1 + i)).1, acc.2 ++ (sample (1 + i)).2))
      (sample 0)
    if appendNodeIds then acc.1 ++ takeToLastNL acc.2 else acc.1

/-- Modelled from the spec: the stochastic graph-to-text converter
(Graph2String, not among the sources) emits line-oriented text: every
draw yields a nonempty structural string and a nonempty node-id string,
each terminated by a line break. -/
def lineOrientedSamples (sample : Nat → List Char × List Char) : Prop :=
  ∀ i, (sample i).1 ≠ [] ∧ (sample i).1.getLast? = some '\n' ∧
       (sample i).2 ≠ [] ∧ (sample i).2.getLast? = some '\n'

theorem wfotsFold_eq_catSamples (sample : Nat → List Char × List Char) :
    (List.range 10).foldl
      (fun acc i => (acc.1 ++ (sample (1 + i)).1, acc.2 ++ (sample (1 + i)).2))
      (sample 0)
    = (catSamples (fun i => (sample i).1) 11, catSamples (fun i => (sample i).2) 11) := by
  show _ = _
  rfl

theorem catSamples_head_append (f : Nat → List Char) :
    ∀ n, n ≠ 0 → ∃ t, f 0 ++ t = catSamples f n := by
  intro n
  induction n with
  | zero => intro h; exact absurd rfl h
  | succ n ih =>
    intro _
    by_cases hn : n = 0
    · subst hn
      exact ⟨[], by simp [catSamples]⟩
    · obtain ⟨t, ht⟩ := ih hn
      exact ⟨t ++ f n, by rw [catSamples, ← ht, List.append_assoc]⟩

theorem catSamples_getLast (f : Nat → List Char) (n : Nat) (hn : f n ≠ []) :
    (catSamples f (n + 1)).getLast? = (f n).getLast? := by
  rw [catSamples, List.getLast?_append]
  rcases hgl : (f n).getLast? with _ | c
  · exact absurd (List.getLast?_eq_none_iff.mp hgl) hn
  · rfl

theorem takeToLastNL_of_getLast (s : List Char)
    (hs : s.getLast? = some '\n') : takeToLastNL s = s.dropLast := by
  have hne : s ≠ [] := by
    intro h
    subst h
    simp at hs
  have := lastIdxP_of_getLast s (fun c => c == '\n') hne ⟨'\n', hs, by decide⟩
  rw [takeToLastNL, this, List.dropLast_eq_take]

/-- Claim C4: WFObjectToStrings returns empty text when the collision
graph is disconnected; on a connected graph it returns a non-empty
result that contains at least the base encoding (the base draw is a
leading segment of the result). -/
theorem WFObjectToStrings_connectivity_gating
    (sample : Nat → List Char × List Char) (appendNodeIds : Bool)
    (hline : lineOrientedSamples sample) :
    WFObjectToStrings false sample appendNodeIds = [] ∧
    WFObjectToStrings true sample appendNodeIds ≠ [] ∧
    ∃ t, (sample 0).1 ++ t = WFObjectToStrings true sample appendNodeIds := by
  have hW : WFObjectToStrings true sample appendNodeIds =
      (if appendNodeIds then
        catSamples (fun i => (sample i).1) 11 ++
          takeToLastNL (catSamples (fun i => (sample i).2) 11)
      else catSamples (fun i => (sample i).1) 11) := by
    show (if appendNodeIds then _ else _) = _
    rw [wfotsFold_eq_catSamples]
  refine ⟨rfl, ?_, ?_⟩
  · obtain ⟨t, ht⟩ := catSamples_head_append (fun i => (sample i).1) 11 (by decide)
    have hbase : (sample 0).1 ≠ [] := (hline 0).1
    rw [hW]
    cases appendNodeIds with
    | false =>
      rw [if_neg (by decide), ← ht]
      intro h
      exact hbase (List.append_eq_nil.mp h).1
    | true =>
      rw [if_pos rfl, ← ht]
      intro h
      exact hbase (List.append_eq_nil.mp (List.append_eq_nil.mp h).1).1
  · obtain ⟨t, ht⟩ := catSamples_head_append (fun i => (sample i).1) 11 (by decide)
    rw [hW]
    cases appendNodeIds with
    | false => exact ⟨t, by rw [if_neg (by decide), ← ht]⟩
    | true =>
      refine ⟨t ++ takeToLastNL (catSamples (fun i => (sample i).2) 11), ?_⟩
      rw [if_pos rfl, ← ht, List.append_assoc]

/-- Sample stream used to instantiate the converter-dependent claims. -/
def sampleW : Nat → List Char × List Char := fun _ => ("g\n".toList, "0\n".toList)

theorem WFObjectToStrings_connectivity_gating_witness :
    lineOrientedSamples sampleW ∧
    WFObjectToStrings false sampleW true = [] ∧
    WFObjectToStrings true sampleW true ≠ [] := by
  have hline : lineOrientedSamples sampleW := by
    intro i
    have h1 : "g\n".toList ≠ [] := by decide
    have h2 : "g\n".toList.getLast? = some '\n' := by decide
    have h3 : "0\n".toList ≠ [] := by decide
    have h4 : "0\n".toList.getLast? = some '\n' := by decide
    exact ⟨h1, h2, h3, h4⟩
  have h := WFObjectToStrings_connectivity_gating sampleW true hline
  exact ⟨hline, h.1, h.2.1⟩

/-- Claim C6: on a connected graph WFObjectToStrings is the concatenation
of exactly 11 independently drawn encodings (one base draw plus ten
redraws); under appendNodeIds the concatenated node-id text is appended
after the structural text with its final trailing line break stripped. -/
theorem WFObjectToStrings_eleven_samples
    (sample : Nat → List Char × List Char)
    (hline : lineOrientedSamples sample) :
    WFObjectToStrings true sample false = catSamples (fun i => (sample i).1) 11 ∧
    WFObjectToStrings true sample true =
      catSamples (fun i => (sample i).1) 11 ++
        (catSamples (fun i => (sample i).2) 11).dropLast := by
  constructor
  · rfl
  · show catSamples (fun i => (sample i).1) 11 ++
      takeToLastNL (catSamples (fun i => (sample i).2) 11) = _
    rw [takeToLastNL_of_getLast]
    rw [catSamples_getLast (fun i => (sample i).2) 10 (hline 10).2.2.1]
    exact (hline 10).2.2.2

theorem WFObjectToStrings_eleven_samples_witness :
    WFObjectToStrings true sampleW true =
      catSamples (fun i => (sampleW i).1) 11 ++
        (catSamples (fun i => (sampleW i).2) 11).dropLast := by
  have hline : lineOrientedSamples sampleW := by
    intro i
    have h1 : "g\n".toList ≠ [] := by decide
    have h2 : "g\n".toList.getLast? = some '\n' := by decide
    have h3 : "0\n".toList ≠ [] := by decide
    have h4 : "0\n".toList.getLast? = some '\n' := by decide
    exact ⟨h1, h2, h3, h4⟩
  exact (WFObjectToStrings_eleven_samples sampleW hline).2


/-! ## StringToWFObject (part_001 lines 256-360)

Edge-type labeling by linear scan, and construction of the target graph
from the parsed adjacency triples. -/

/-- Index of the first stored edge whose endpoints equal (n1, n2): the
linear scan with break over edge ids. -/
def firstMatch : List Nat → List Nat → Nat → Nat → Option Nat
  | k :: ks, v :: vs, n1, n2 =>
    if k = n1 ∧ v = n2 then some 0
    else (firstMatch ks vs n1 n2).map (fun i => i + 1)
  | _, _, _, _ => none

/-- Processing of one parsed (node1, node2, type) triple: the first
matching edge receives the type, everything else is untouched. -/
def applyTriple (keys vals : List Nat) (labels : List Nat)
    (t : Nat × Nat × Nat) : List Nat :=
  match firstMatch keys vals t.1 t.2.1 with
  | some e => labels.set e t.2.2
  | none => labels

/-- Edge-type array of one exemplar: initialized to the (unsigned)(-1)
sentinel, then updated by every parsed triple in order. -/
def labelEdges (keys vals : List Nat) (ts : List (Nat × Nat × Nat)) : List Nat :=
  ts.foldl (applyTriple keys vals) (List.replicate keys.length UINT_MAX)

/-- Running maximum over the node ids of the parsed triples, starting
from 0 as in the C++ code. -/
def maxStep (m : Nat) (t : Nat × Nat × Nat) : Nat := max (max m t.1) t.2.1

def maxNodeId (ts : List (Nat × Nat × Nat)) : Nat := ts.foldl maxStep 0

/-- Stored pair list of the adjacency-list constructor: the given pairs,
and, in the undirected case, the synthesized missing mirror pairs. -/
def adjacencyPairs (keys vals : List Nat) (directed : Bool) : List (Nat × Nat) :=
  let pairs := keys.zip vals
  if directed then pairs
  else pairs ++ (pairs.map Prod.swap).filter (fun e => !(decide (e ∈ pairs)))

/-- Modelled from the spec: Graph.fromAdjacencyList (Graph.cpp is not
among the sources): build from unsorted (key, val) pairs; when directed
is false, reverse edges are synthesized for any pair missing its
mirror. -/
def fromAdjacencyList (keys vals : List Nat) (nodeCount : Nat)
    (directed : Bool) : Graph :=
  ⟨(List.range (nodeCount + 1)).map
      (fun i => ((adjacencyPairs keys vals directed).filter (fun e => e.1 < i)).length),
   (adjacencyPairs keys vals directed).map Prod.fst,
   (adjacencyPairs keys vals directed).map Prod.snd⟩

/-- Three newline-delimited lines of each triple-block, parsed and zipped
as by the three parallel extraction streams (the while loop stops at the
first stream that fails, which zip's truncation mirrors). -/
def stringToWFObjectTriples (input : List Char) (blk : Nat) :
    List (Nat × Nat × Nat) :=
  (parseNats (lineAt input (3 * blk))).zip
    ((parseNats (lineAt input (3 * blk + 1))).zip
      (parseNats (lineAt input (3 * blk + 2))))

structure S2WResult where
  edgeTypes1 : List Nat
  edgeTypes2 : List Nat
  graph3 : Graph
  status : Nat
  written : Bool

/-- StringToWFObject: labels the two exemplar edge lists from the first
two triple-blocks, builds the target graph from the third block with the
undirected adjacency-list constructor — the node count max_node_id + 1
is computed in 32-bit unsigned arithmetic — generates the object, writes
it out unconditionally and returns 0. -/
def StringToWFObject (keys1 vals1 keys2 vals2 : List Nat)
    (input : List Char) : S2WResult :=
  ⟨labelEdges keys1 vals1 (stringToWFObjectTriples input 0),
   labelEdges keys2 vals2 (stringToWFObjectTriples input 1),
   fromAdjacencyList ((stringToWFObjectTriples input 2).map (fun t => t.1))
     ((stringToWFObjectTriples input 2).map (fun t => t.2.1))
     ((maxNodeId (stringToWFObjectTriples input 2) + 1) % UINT_MOD) false,
   0,
   true⟩

theorem graphEdges_of_pairs (ivs : List Nat) (l : List (Nat × Nat)) :
    graphEdges ⟨ivs, l.map Prod.fst, l.map Prod.snd⟩ = l := by
  simp [graphEdges, List.zip_map']

theorem firstMatch_spec (keys : List Nat) :
    ∀ (vals : List Nat) (n1 n2 e : Nat),
      firstMatch keys vals n1 n2 = some e →
      keys[e]? = some n1 ∧ vals[e]? = some n2 := by
  induction keys with
  | nil => intro vals n1 n2 e h; simp [firstMatch] at h
  | cons k ks ih =>
    intro vals n1 n2 e h
    cases vals with
    | nil => simp [firstMatch] at h
    | cons v vs =>
      rw [firstMatch] at h
      by_cases h0 : k = n1 ∧ v = n2
      · rw [if_pos h0] at h
        injection h with he
        subst he
        exact ⟨by rw [List.getElem?_cons_zero, h0.1],
          by rw [List.getElem?_cons_zero, h0.2]⟩
      · rw [if_neg h0] at h
        rcases hfm : firstMatch ks vs n1 n2 with _ | i
        · rw [hfm] at h
          simp at h
        · rw [hfm] at h
          rw [Option.map_some'] at h
          injection h with he
          subst he
          have := ih vs n1 n2 i hfm
          exact ⟨by rw [List.getElem?_cons_succ]; exact this.1,
            by rw [List.getElem?_cons_succ]; exact this.2⟩

theorem firstMatch_lt_length (keys vals : List Nat) (n1 n2 e : Nat)
    (h : firstMatch keys vals n1 n2 = some e) : e < keys.length := by
  have := (firstMatch_spec keys vals n1 n2 e h).1
  exact (List.getElem?_eq_some.mp this).1

theorem applyTriple_length (keys vals labels : List Nat) (t : Nat × Nat × Nat) :
    (applyTriple keys vals labels t).length = labels.length := by
  unfold applyTriple
  cases firstMatch keys vals t.1 t.2.1 with
  | none => rfl
  | some e => exact List.length_set ..

theorem labelFold_of_no_match (keys vals : List Nat)
    (ts : List (Nat × Nat × Nat)) (e : Nat) :
    ∀ labels : List Nat,
      (∀ t ∈ ts, firstMatch keys vals t.1 t.2.1 ≠ some e) →
      (ts.foldl (applyTriple keys vals) labels)[e]? = labels[e]? := by
  induction ts with
  | nil => intro labels _; rfl
  | cons t ts ih =>
    intro labels h
    rw [List.foldl_cons, ih _ (fun u hu => h u (List.mem_cons_of_mem t hu))]
    unfold applyTriple
    cases hm : firstMatch keys vals t.1 t.2.1 with
    | none => rfl
    | some f =>
      have hfe : f ≠ e := by
        intro hfe
        exact h t (List.mem_cons_self t ts) (hfe ▸ hm)
      exact List.getElem?_set_ne hfe

theorem labelFold_of_match (keys vals : List Nat)
    (ts : List (Nat × Nat × Nat)) (t : Nat × Nat × Nat) (e : Nat) :
    ∀ labels : List Nat,
      (ts.map (fun u => (u.1, u.2.1))).Nodup →
      t ∈ ts →
      firstMatch keys vals t.1 t.2.1 = some e →
      labels.length = keys.length →
      (ts.foldl (applyTriple keys vals) labels)[e]? = some t.2.2 := by
  induction ts with
  | nil => intro labels _ hmem _ _; exact absurd hmem (List.not_mem_nil t)
  | cons t0 ts ih =>
    intro labels hnodup hmem hfm hlen
    rw [List.map_cons, List.nodup_cons] at hnodup
    rcases List.mem_cons.mp hmem with rfl | hmem'
    · rw [List.foldl_cons]
      have hstep : applyTriple keys vals labels t = labels.set e t.2.2 := by
        unfold applyTriple
        rw [hfm]
      have hnm : ∀ u ∈ ts, firstMatch keys vals u.1 u.2.1 ≠ some e := by
        intro u hu hufm
        have hu' := firstMatch_spec keys vals u.1 u.2.1 e hufm
        have ht' := firstMatch_spec keys vals t.1 t.2.1 e hfm
        have hpair : (u.1, u.2.1) = (t.1, t.2.1) := by
          have h1 : some u.1 = some t.1 := by rw [← hu'.1, ht'.1]
          have h2 : some u.2.1 = some t.2.1 := by rw [← hu'.2, ht'.2]
          injection h1 with h1'
          injection h2 with h2'
          rw [h1', h2']
        exact hnodup.1 (hpair ▸ List.mem_map_of_mem (fun u => (u.1, u.2.1)) hu)
      rw [hstep, labelFold_of_no_match keys vals ts e _ hnm]
      exact List.getElem?_set_eq_of_lt _
        (by rw [hlen]; exact firstMatch_lt_length keys vals _ _ e hfm)
    · rw [List.foldl_cons]
      exact ih _ hnodup.2 hmem' hfm (by rw [applyTriple_length, hlen])

theorem maxFold_init_le (ts : List (Nat × Nat × Nat)) :
    ∀ a : Nat, a ≤ ts.foldl maxStep a := by
  induction ts with
  | nil => intro a; exact Nat.le_refl a
  | cons t ts ih =>
    intro a
    rw [List.foldl_cons]
    have h1 : a ≤ maxStep a t := by
      unfold maxStep
      exact Nat.le_trans (Nat.le_max_left a t.1) (Nat.le_max_left (max a t.1) t.2.1)
    exact Nat.le_trans h1 (ih (maxStep a t))

theorem maxFold_mem_le (ts : List (Nat × Nat × Nat)) :
    ∀ (a : Nat) (t : Nat × Nat × Nat), t ∈ ts →
      t.1 ≤ ts.foldl maxStep a ∧ t.2.1 ≤ ts.foldl maxStep a := by
  induction ts with
  | nil => intro a t hmem; exact absurd hmem (List.not_mem_nil t)
  | cons t0 ts ih =>
    intro a t hmem
    rw [List.foldl_cons]
    rcases List.mem_cons.mp hmem with rfl | hmem'
    · constructor
      · have h1 : t.1 ≤ maxStep a t := by
          unfold maxStep
          exact Nat.le_trans (Nat.le_max_right a t.1)
            (Nat.le_max_left (max a t.1) t.2.1)
        exact Nat.le_trans h1 (maxFold_init_le ts (maxStep a t))
      · have h1 : t.2.1 ≤ maxStep a t := by
          unfold maxStep
          exact Nat.le_max_right (max a t.1) t.2.1
        exact Nat.le_trans h1 (maxFold_init_le ts (maxStep a t))
    · exact ih (maxStep a t0) t hmem'

theorem maxFold_attained (ts : List (Nat × Nat × Nat)) :
    ∀ a : Nat, ts.foldl maxStep a = a ∨
      ∃ t ∈ ts, ts.foldl maxStep a = t.1 ∨ ts.foldl maxStep a = t.2.1 := by
  induction ts with
  | nil => intro a; exact Or.inl rfl
  | cons t0 ts ih =>
    intro a
    rw [List.foldl_cons]
    rcases ih (maxStep a t0) with h | ⟨t, hmem, ht⟩
    · rw [h]
      unfold maxStep
      rcases max_choice (max a t0.1) t0.2.1 with h1 | h1
      · rcases max_choice a t0.1 with h2 | h2
        · exact Or.inl (by rw [h1, h2])
        · exact Or.inr ⟨t0, List.mem_cons_self t0 ts, Or.inl (by rw [h1, h2])⟩
      · exact Or.inr ⟨t0, List.mem_cons_self t0 ts, Or.inr h1⟩
    · exact Or.inr ⟨t, List.mem_cons_of_mem t0 hmem, ht⟩

theorem maxNodeId_attained (ts : List (Nat × Nat × Nat)) (hne : ts ≠ []) :
    ∃ t ∈ ts, maxNodeId ts = t.1 ∨ maxNodeId ts = t.2.1 := by
  rcases maxFold_attained ts 0 with h | h
  · cases ts with
    | nil => exact absurd rfl hne
    | cons t0 ts' =>
      refine ⟨t0, List.mem_cons_self t0 ts', Or.inl ?_⟩
      have hle := (maxFold_mem_le (t0 :: ts') 0 t0 (List.mem_cons_self t0 ts')).1
      unfold maxNodeId
      omega
  · exact h

theorem numNodes_fromAdjacencyList (keys vals : List Nat) (nodeCount : Nat)
    (directed : Bool) :
    numNodes (fromAdjacencyList keys vals nodeCount directed) = nodeCount := by
  simp [numNodes, fromAdjacencyList]

theorem graphEdges_fromAdjacencyList (keys vals : List Nat) (nodeCount : Nat)
    (directed : Bool) :
    graphEdges (fromAdjacencyList keys vals nodeCount directed) =
      adjacencyPairs keys vals directed :=
  graphEdges_of_pairs _ _

theorem adjacencyPairs_undirected (keys vals : List Nat) :
    adjacencyPairs keys vals false =
      keys.zip vals ++
        ((keys.zip vals).map Prod.swap).filter
          (fun e => !(decide (e ∈ keys.zip vals))) := rfl

theorem fromAdjacencyList_symm (keys vals : List Nat) (nodeCount : Nat) :
    ∀ p ∈ graphEdges (fromAdjacencyList keys vals nodeCount false),
      Prod.swap p ∈ graphEdges (fromAdjacencyList keys vals nodeCount false) := by
  intro p hp
  rw [graphEdges_fromAdjacencyList, adjacencyPairs_undirected] at hp ⊢
  rcases List.mem_append.mp hp with hdir | hmir
  · by_cases hsw : Prod.swap p ∈ keys.zip vals
    · exact List.mem_append_left _ hsw
    · refine List.mem_append_right _ (List.mem_filter.mpr ⟨?_, ?_⟩)
      · exact List.mem_map_of_mem Prod.swap hdir
      · simp [hsw]
  · rcases List.mem_filter.mp hmir with ⟨hmem, _⟩
    rcases List.mem_map.mp hmem with ⟨q, hq, rfl⟩
    rw [Prod.swap_swap]
    exact List.mem_append_left _ hq

theorem mem_graphEdges_fromAdjacencyList (keys vals : List Nat)
    (nodeCount : Nat) (p : Nat × Nat) (hp : p ∈ keys.zip vals) :
    p ∈ graphEdges (fromAdjacencyList keys vals nodeCount false) := by
  rw [graphEdges_fromAdjacencyList, adjacencyPairs_undirected]
  exact List.mem_append_left _ hp

/-- Claim C7: StringToWFObject parses the encoded text as 9
newline-delimited lines in three triples; for each exemplar every parsed
(node1, node2, type) triple is matched by linear scan against that
exemplar's existing edge list — each matched edge receives the given
label while every unmatched edge keeps the (unsigned)(-1) sentinel — and
the target graph is built from the third triple via the undirected
adjacency-list constructor with node count equal to one plus the maximum
node id referenced in the triple, the sum computed in 32-bit unsigned
arithmetic (so it equals one plus the maximum literally whenever the
maximum referenced id is below 4294967295). -/
theorem StringToWFObject_parse_label_build
    (keys1 vals1 keys2 vals2 : List Nat) (input : List Char) :
    (∀ e < keys1.length,
      (∀ t ∈ stringToWFObjectTriples input 0,
        ¬(keys1[e]? = some t.1 ∧ vals1[e]? = some t.2.1)) →
      (StringToWFObject keys1 vals1 keys2 vals2 input).edgeTypes1[e]? =
        some UINT_MAX) ∧
    (∀ t ∈ stringToWFObjectTriples input 0, ∀ e : Nat,
      ((stringToWFObjectTriples input 0).map (fun u => (u.1, u.2.1))).Nodup →
      firstMatch keys1 vals1 t.1 t.2.1 = some e →
      (StringToWFObject keys1 vals1 keys2 vals2 input).edgeTypes1[e]? =
        some t.2.2) ∧
    (∀ e < keys2.length,
      (∀ t ∈ stringToWFObjectTriples input 1,
        ¬(keys2[e]? = some t.1 ∧ vals2[e]? = some t.2.1)) →
      (StringToWFObject keys1 vals1 keys2 vals2 input).edgeTypes2[e]? =
        some UINT_MAX) ∧
    (∀ t ∈ stringToWFObjectTriples input 1, ∀ e : Nat,
      ((stringToWFObjectTriples input 1).map (fun u => (u.1, u.2.1))).Nodup →
      firstMatch keys2 vals2 t.1 t.2.1 = some e →
      (StringToWFObject keys1 vals1 keys2 vals2 input).edgeTypes2[e]? =
        some t.2.2) ∧
    numNodes (StringToWFObject keys1 vals1 keys2 vals2 input).graph3 =
      (maxNodeId (stringToWFObjectTriples input 2) + 1) % UINT_MOD ∧
    (maxNodeId (stringToWFObjectTriples input 2) < UINT_MAX →
      numNodes (StringToWFObject keys1 vals1 keys2 vals2 input).graph3 =
        maxNodeId (stringToWFObjectTriples input 2) + 1) ∧
    (∀ t ∈ stringToWFObjectTriples input 2,
      t.1 ≤ maxNodeId (stringToWFObjectTriples input 2) ∧
      t.2.1 ≤ maxNodeId (stringToWFObjectTriples input 2)) ∧
    (stringToWFObjectTriples input 2 ≠ [] →
      ∃ t ∈ stringToWFObjectTriples input 2,
        maxNodeId (stringToWFObjectTriples input 2) = t.1 ∨
        maxNodeId (stringToWFObjectTriples input 2) = t.2.1) ∧
    (∀ t ∈ stringToWFObjectTriples input 2,
      (t.1, t.2.1) ∈
        graphEdges (StringToWFObject keys1 vals1 keys2 vals2 input).graph3) ∧
    (∀ p ∈ graphEdges (StringToWFObject keys1 vals1 keys2 vals2 input).graph3,
      Prod.swap p ∈
        graphEdges (StringToWFObject keys1 vals1 keys2 vals2 input).graph3) := by
  refine ⟨?_, ?_, ?_, ?_, ?_, ?_, ?_, ?_, ?_, ?_⟩
  · intro e he hno
    show (labelEdges keys1 vals1 (stringToWFObjectTriples input 0))[e]? = _
    unfold labelEdges
    rw [labelFold_of_no_match keys1 vals1 _ e _ ?noFM]
    · exact List.getElem?_replicate_of_lt he
    case noFM =>
      intro t ht hfm
      exact hno t ht (firstMatch_spec keys1 vals1 t.1 t.2.1 e hfm)
  · intro t ht e hnodup hfm
    show (labelEdges keys1 vals1 (stringToWFObjectTriples input 0))[e]? = _
    unfold labelEdges
    exact labelFold_of_match keys1 vals1 _ t e _ hnodup ht hfm
      (List.length_replicate _ _)
  · intro e he hno
    show (labelEdges keys2 vals2 (stringToWFObjectTriples input 1))[e]? = _
    unfold labelEdges
    rw [labelFold_of_no_match keys2 vals2 _ e _ ?noFM2]
    · exact List.getElem?_replicate_of_lt he
    case noFM2 =>
      intro t ht hfm
      exact hno t ht (firstMatch_spec keys2 vals2 t.1 t.2.1 e hfm)
  · intro t ht e hnodup hfm
    show (labelEdges keys2 vals2 (stringToWFObjectTriples input 1))[e]? = _
    unfold labelEdges
    exact labelFold_of_match keys2 vals2 _ t e _ hnodup ht hfm
      (List.length_replicate _ _)
  · exact numNodes_fromAdjacencyList ..
  · intro hlt
    have h1 : numNodes (StringToWFObject keys1 vals1 keys2 vals2 input).graph3 =
        (maxNodeId (stringToWFObjectTriples input 2) + 1) % UINT_MOD :=
      numNodes_fromAdjacencyList ..
    rw [h1]
    have h2 : maxNodeId (stringToWFObjectTriples input 2) + 1 < UINT_MOD := by
      unfold UINT_MAX at hlt
      unfold UINT_MOD
      omega
    exact Nat.mod_eq_of_lt h2
  · intro t ht
    exact maxFold_mem_le _ 0 t ht
  · exact maxNodeId_attained _
  · intro t ht
    apply mem_graphEdges_fromAdjacencyList
    rw [List.zip_map']
    exact List.mem_map_of_mem _ ht
  · show ∀ p ∈ graphEdges (fromAdjacencyList
        ((stringToWFObjectTriples input 2).map (fun t => t.1))
        ((stringToWFObjectTriples input 2).map (fun t => t.2.1))
        ((maxNodeId (stringToWFObjectTriples input 2) + 1) % UINT_MOD) false),
      Prod.swap p ∈ graphEdges (fromAdjacencyList
        ((stringToWFObjectTriples input 2).map (fun t => t.1))
        ((stringToWFObjectTriples input 2).map (fun t => t.2.1))
        ((maxNodeId (stringToWFObjectTriples input 2) + 1) % UINT_MOD) false)
    exact fromAdjacencyList_symm _ _ _

/-- Concrete encoded text used to instantiate the parsing claims. -/
def s2wInputW : List Char := "0\n1\n5\n\n\n\n0 1\n1 2\n7 8\n".toList

theorem StringToWFObject_parse_label_build_witness :
    (StringToWFObject [0, 1] [1, 0] [] [] s2wInputW).edgeTypes1[1]? =
      some UINT_MAX ∧
    (StringToWFObject [0, 1] [1, 0] [] [] s2wInputW).edgeTypes1[0]? = some 5 ∧
    numNodes (StringToWFObject [0, 1] [1, 0] [] [] s2wInputW).graph3 =
      maxNodeId (stringToWFObjectTriples s2wInputW 2) + 1 ∧
    (∃ t ∈ stringToWFObjectTriples s2wInputW 2,
      maxNodeId (stringToWFObjectTriples s2wInputW 2) = t.1 ∨
      maxNodeId (stringToWFObjectTriples s2wInputW 2) = t.2.1) := by
  have H := StringToWFObject_parse_label_build [0, 1] [1, 0] [] [] s2wInputW
  refine ⟨H.1 1 (by decide) (by decide), ?_, ?_, ?_⟩
  · exact H.2.1 (0, 1, 5) (by decide) 0 (by decide) (by decide)
  · exact H.2.2.2.2.2.1 (by decide)
  · exact H.2.2.2.2.2.2.2.1 (by decide)

/-- Encoded text whose third triple references node id 4294967295, the
largest 32-bit unsigned value, which operator>> extracts successfully. -/
def s2wWrapInput : List Char := "\n\n\n\n\n\n4294967295\n0\n7\n".toList

/-- Claim C7 counterexample: the target graph's node count is computed
as max_node_id + 1 in 32-bit unsigned arithmetic, so at the parseable
node id 4294967295 the sum wraps to 0 and the built graph has 0 nodes —
not one plus the maximum node id referenced in the triple. -/
theorem StringToWFObject_nodeCount_wrap :
    maxNodeId (stringToWFObjectTriples s2wWrapInput 2) = 4294967295 ∧
    numNodes (StringToWFObject [] [] [] [] s2wWrapInput).graph3 = 0 ∧
    numNodes (StringToWFObject [] [] [] [] s2wWrapInput).graph3 ≠
      maxNodeId (stringToWFObjectTriples s2wWrapInput 2) + 1 := by
  refine ⟨?_, ?_, ?_⟩ <;> decide

/-- Claim C10: StringToWFObject returns status 0 for every input string;
malformed encoded text (fewer than 9 lines, no parseable triples) never
produces a nonzero status — the edge-type arrays keep all sentinels, the
target graph degenerates to one node with no edges, and the output file
is written unconditionally. -/
theorem StringToWFObject_always_status_zero
    (keys1 vals1 keys2 vals2 : List Nat) (input : List Char) :
    (StringToWFObject keys1 vals1 keys2 vals2 input).status = 0 ∧
    (StringToWFObject keys1 vals1 keys2 vals2 input).written = true ∧
    (stringToWFObjectTriples input 0 = [] →
      (StringToWFObject keys1 vals1 keys2 vals2 input).edgeTypes1 =
        List.replicate keys1.length UINT_MAX) ∧
    (stringToWFObjectTriples input 2 = [] →
      graphEdges (StringToWFObject keys1 vals1 keys2 vals2 input).graph3 = [] ∧
      numNodes (StringToWFObject keys1 vals1 keys2 vals2 input).graph3 = 1) := by
  refine ⟨rfl, rfl, ?_, ?_⟩
  · intro h
    show labelEdges keys1 vals1 (stringToWFObjectTriples input 0) = _
    rw [labelEdges, h]
    rfl
  · intro h
    constructor
    · show graphEdges (fromAdjacencyList
        ((stringToWFObjectTriples input 2).map (fun t => t.1))
        ((stringToWFObjectTriples input 2).map (fun t => t.2.1))
        ((maxNodeId (stringToWFObjectTriples input 2) + 1) % UINT_MOD) false) = []
      rw [graphEdges_fromAdjacencyList, h]
      rfl
    · show numNodes (fromAdjacencyList
        ((stringToWFObjectTriples input 2).map (fun t => t.1))
        ((stringToWFObjectTriples input 2).map (fun t => t.2.1))
        ((maxNodeId (stringToWFObjectTriples input 2) + 1) % UINT_MOD) false) = 1
      rw [numNodes_fromAdjacencyList, h]
      rfl

theorem StringToWFObject_always_status_zero_witness :
    (StringToWFObject [3] [4] [] [] "zz".toList).status = 0 ∧
    (StringToWFObject [3] [4] [] [] "zz".toList).edgeTypes1 =
      List.replicate 1 UINT_MAX ∧
    numNodes (StringToWFObject [3] [4] [] [] "zz".toList).graph3 = 1 := by
  have H := StringToWFObject_always_status_zero [3] [4] [] [] "zz".toList
  refine ⟨H.1, ?_, ?_⟩
  · exact H.2.2.1 (by decide)
  · exact (H.2.2.2 (by decide)).2

/-! ## fixVariation (part_001 lines 180-254)

The two exemplars enter fixVariation only through the grammar check and
the Wiggle templates, the target object only through the Wiggle passes
and the post-repair validation, so they are abstracted as: the result of
the initial grammar check, the per-pass action of
Wiggle.fixRelativeTransformations (new object state plus the
numCorrections counter of the pass), the result of the post-repair
validation on the final state, and the debugOutputLocalFrames flag. -/

/-- The pass loop: at most the given number of passes, stopping right
after the first pass whose correction counter is zero.  Returns the final
object state and the per-pass correction-counter trace. -/
def runWigglePasses {σ : Type} (step : σ → σ × Nat) : Nat → σ → σ × List Nat
  | 0, s => (s, [])
  | n + 1, s =>
    if (step s).2 = 0 then ((step s).1, [(step s).2])
    else ((runWigglePasses step n (step s).1).1,
          (step s).2 :: (runWigglePasses step n (step s).1).2)

/-- Path separator test of find_last_of with a forward or backward
slash. -/
def isSep (c : Char) : Bool := c == '/' || c == '\\'

/-- Portion of a path after its last separator (the whole string when
there is none). -/
def basename (s : List Char) : List Char :=
  match lastIdxP s isSep with
  | none => s
  | some p => s.drop (p + 1)

/-- The output-name derivation of fixVariation (lines 234-238): without
a separator, substr(0, size-5); with one at position p,
substr(p+1, size-p-5), both with size_t arithmetic. -/
def deriveOutName (s : List Char) : List Char :=
  match lastIdxP s isSep with
  | none => s.take (sizeTSub s.length 5)
  | some p => (s.drop (p + 1)).take (sizeTSub (s.length - p) 5)

/-- A list with its trailing n elements removed. -/
def dropLastN (l : List Char) (n : Nat) : List Char := l.take (l.length - n)

structure FixVariationResult (σ : Type) where
  status : Nat
  trace : List Nat
  finalObj : σ
  written : Option (List Char)

/-- fixVariation: status 1 when the target fails the grammar check; a
capped Wiggle pass loop otherwise; then either a file write and status 0
(post-repair validation passed, or the debug flag bypasses it) or status
2. -/
def fixVariation {σ : Type} (grammarOk : Bool) (step : σ → σ × Nat)
    (postCheck : σ → Bool) (debugOutputLocalFrames : Bool)
    (obj3 : σ) (objDir outFileName : List Char) : FixVariationResult σ :=
  if grammarOk = false then ⟨1, [], obj3, none⟩
  else if debugOutputLocalFrames || postCheck (runWigglePasses step 128 obj3).1 then
    ⟨0, (runWigglePasses step 128 obj3).2, (runWigglePasses step 128 obj3).1,
     some (objDir ++ deriveOutName outFileName)⟩
  else ⟨2, (runWigglePasses step 128 obj3).2, (runWigglePasses step 128 obj3).1,
    none⟩

theorem runWigglePasses_length {σ : Type} (step : σ → σ × Nat) :
    ∀ (n : Nat) (s : σ), (runWigglePasses step n s).2.length ≤ n := by
  intro n
  induction n with
  | zero => intro s; exact Nat.le_refl 0
  | succ n ih =>
    intro s
    rw [runWigglePasses]
    by_cases h : (step s).2 = 0
    · rw [if_pos h]
      exact Nat.succ_le_succ (Nat.zero_le n)
    · rw [if_neg h]
      exact Nat.succ_le_succ (ih (step s).1)

theorem runWigglePasses_no_zero_before_last {σ : Type} (step : σ → σ × Nat) :
    ∀ (n : Nat) (s : σ) (i : Nat),
      i + 1 < (runWigglePasses step n s).2.length →
      (runWigglePasses step n s).2[i]? ≠ some 0 := by
  intro n
  induction n with
  | zero =>
    intro s i h
    simp [runWigglePasses] at h
  | succ n ih =>
    intro s i h
    rw [runWigglePasses] at h ⊢
    by_cases h0 : (step s).2 = 0
    · rw [if_pos h0] at h
      simp only [List.length_cons, List.length_nil] at h
      omega
    · rw [if_neg h0] at h ⊢
      cases i with
      | zero =>
        intro hc
        rw [List.getElem?_cons_zero] at hc
        injection hc with hc2
        exact h0 hc2
      | succ i =>
        rw [List.getElem?_cons_succ]
        apply ih (step s).1 i
        simp only [List.length_cons] at h
        omega

/-- Claim C1: in fixVariation the Wiggle pass loop executes
fixRelativeTransformations at most 128 times, and once a pass reports
zero corrections no further pass executes (every pass that has a later
pass reported a nonzero correction count). -/
theorem fixVariation_pass_cap {σ : Type} (grammarOk : Bool)
    (step : σ → σ × Nat) (postCheck : σ → Bool) (debug : Bool)
    (obj3 : σ) (objDir outFileName : List Char) :
    (fixVariation grammarOk step postCheck debug obj3 objDir
      outFileName).trace.length ≤ 128 ∧
    ∀ i : Nat,
      i + 1 < (fixVariation grammarOk step postCheck debug obj3 objDir
        outFileName).trace.length →
      (fixVariation grammarOk step postCheck debug obj3 objDir
        outFileName).trace[i]? ≠ some 0 := by
  unfold fixVariation
  by_cases hg : grammarOk = false
  · rw [if_pos hg]
    constructor
    · exact Nat.zero_le 128
    · intro i h
      simp only [List.length_nil] at h
      omega
  · rw [if_neg hg]
    by_cases hd : (debug || postCheck (runWigglePasses step 128 obj3).1) = true
    · rw [if_pos hd]
      exact ⟨runWigglePasses_length step 128 obj3,
        runWigglePasses_no_zero_before_last step 128 obj3⟩
    · rw [if_neg hd]
      exact ⟨runWigglePasses_length step 128 obj3,
        runWigglePasses_no_zero_before_last step 128 obj3⟩

/-- A Wiggle pass action that always reports one correction. -/
def stepNeverConverges : Nat → Nat × Nat := fun s => (s + 1, 1)

set_option maxRecDepth 10000 in
theorem fixVariation_pass_cap_witness :
    (fixVariation true stepNeverConverges (fun _ => false) false 0 [] []).trace.length ≤ 128 ∧
    (fixVariation true stepNeverConverges (fun _ => false) false 0 [] []).trace[0]? ≠ some 0 := by
  have H := fixVariation_pass_cap true stepNeverConverges (fun _ => false) false 0 [] []
  exact ⟨H.1, H.2 0 (by decide)⟩

/-- Claim C2: when the target's collision graph fails the grammar check,
fixVariation returns status 1 with no Wiggle pass executed, the target
object unchanged and no file written. -/
theorem fixVariation_invalid_target {σ : Type} (grammarOk : Bool)
    (step : σ → σ × Nat) (postCheck : σ → Bool) (debug : Bool)
    (obj3 : σ) (objDir outFileName : List Char)
    (hg : grammarOk = false) :
    (fixVariation grammarOk step postCheck debug obj3 objDir outFileName).status = 1 ∧
    (fixVariation grammarOk step postCheck debug obj3 objDir outFileName).trace = [] ∧
    (fixVariation grammarOk step postCheck debug obj3 objDir outFileName).finalObj = obj3 ∧
    (fixVariation grammarOk step postCheck debug obj3 objDir outFileName).written = none := by
  unfold fixVariation
  rw [if_pos hg]
  exact ⟨rfl, rfl, rfl, rfl⟩

theorem fixVariation_invalid_target_witness :
    (fixVariation false stepNeverConverges (fun _ => false) false 7 [] []).status = 1 ∧
    (fixVariation false stepNeverConverges (fun _ => false) false 7 [] []).trace = [] ∧
    (fixVariation false stepNeverConverges (fun _ => false) false 7 [] []).finalObj = 7 ∧
    (fixVariation false stepNeverConverges (fun _ => false) false 7 [] []).written = none :=
  fixVariation_invalid_target false stepNeverConverges (fun _ => false) false 7 [] [] rfl

/-- A Wiggle pass action that reports zero corrections at once. -/
def stepConvergesAtOnce : Nat → Nat × Nat := fun s => (s, 0)

/-- A post-repair validation that always fails. -/
def postAlwaysFails : Nat → Bool := fun _ => false

/-- A post-repair validation that always passes. -/
def postAlwaysPasses : Nat → Bool := fun _ => true

set_option maxRecDepth 10000 in
/-- Claim C3 counterexample: a run in which Wiggle exhausts the 128-pass
cap with its last pass still reporting corrections, and a run in which
the very first pass reports zero corrections but the post-repair
validation fails, produce the same return status 2 — the status does not
distinguish the two outcomes. -/
theorem fixVariation_status_not_distinct :
    (fixVariation true stepNeverConverges postAlwaysFails false 0 [] []).trace.length = 128 ∧
    (fixVariation true stepNeverConverges postAlwaysFails false 0 [] []).trace.getLast? = some 1 ∧
    (fixVariation true stepConvergesAtOnce postAlwaysFails false 0 [] []).trace = [0] ∧
    (fixVariation true stepNeverConverges postAlwaysFails false 0 [] []).status =
      (fixVariation true stepConvergesAtOnce postAlwaysFails false 0 [] []).status ∧
    (fixVariation true stepNeverConverges postAlwaysFails false 0 [] []).status = 2 := by
  refine ⟨?_, ?_, ?_, ?_, ?_⟩ <;> decide

/-- Claim C3 (amended): fixVariation returns status 2 whenever the
initial grammar check passes, the debug flag is off and the post-repair
validation fails, regardless of whether the Wiggle loop converged or
exhausted the 128-pass cap; exhaustion and converged-but-invalid share
status 2 and are not distinguishable from the status alone. -/
theorem fixVariation_status_two {σ : Type} (grammarOk : Bool)
    (step : σ → σ × Nat) (postCheck : σ → Bool)
    (obj3 : σ) (objDir outFileName : List Char)
    (hg : grammarOk = true)
    (hpost : postCheck (runWigglePasses step 128 obj3).1 = false) :
    (fixVariation grammarOk step postCheck false obj3 objDir outFileName).status = 2 ∧
    (fixVariation grammarOk step postCheck false obj3 objDir outFileName).written = none := by
  unfold fixVariation
  rw [hg]
  rw [if_neg (by decide : ¬(true = false))]
  rw [if_neg (by rw [Bool.false_or, hpost]; exact Bool.false_ne_true)]
  exact ⟨rfl, rfl⟩

set_option maxRecDepth 10000 in
theorem fixVariation_status_two_witness :
    (fixVariation true stepConvergesAtOnce postAlwaysFails false (0 : Nat) [] []).status = 2 ∧
    (fixVariation true stepConvergesAtOnce postAlwaysFails false (0 : Nat) [] []).written = none :=
  fixVariation_status_two true stepConvergesAtOnce postAlwaysFails 0 [] [] rfl (by decide)

set_option maxRecDepth 10000 in
/-- Claim C8 counterexample: with outFilename d/name.obj (which contains
a path separator) a successful repair writes basename name, i.e. the
basename with its trailing 4 characters removed, not the basename with
its trailing 5 characters removed (which would be nam). -/
theorem fixVariation_basename_counterexample :
    (fixVariation true stepConvergesAtOnce postAlwaysPasses false (0 : Nat)
      "D/".toList "d/name.obj".toList).status = 0 ∧
    (fixVariation true stepConvergesAtOnce postAlwaysPasses false (0 : Nat)
      "D/".toList "d/name.obj".toList).written = some ("D/name".toList) ∧
    some ("D/name".toList) ≠
      some ("D/".toList ++ dropLastN (basename "d/name.obj".toList) 5) := by
  refine ⟨?_, ?_, ?_⟩ <;> decide

/-- Claim C8 (amended): on successful repair fixVariation returns status
0 and writes to the target object's directory joined with a name derived
from outFilename: when outFilename contains no path separator its
trailing 5 characters are removed; when it contains one, the basename
keeps all but its trailing 4 characters. -/
theorem fixVariation_output_path {σ : Type} (grammarOk : Bool)
    (step : σ → σ × Nat) (postCheck : σ → Bool) (debug : Bool)
    (obj3 : σ) (objDir outFileName : List Char)
    (hg : grammarOk = true)
    (hpost : (debug || postCheck (runWigglePasses step 128 obj3).1) = true) :
    (fixVariation grammarOk step postCheck debug obj3 objDir outFileName).status = 0 ∧
    (fixVariation grammarOk step postCheck debug obj3 objDir outFileName).written =
      some (objDir ++ deriveOutName outFileName) ∧
    (lastIdxP outFileName isSep = none → outFileName.length < SIZE_T_MOD →
      5 ≤ outFileName.length →
      deriveOutName outFileName = dropLastN outFileName 5) ∧
    (∀ p : Nat, lastIdxP outFileName isSep = some p →
      outFileName.length < SIZE_T_MOD → p + 5 ≤ outFileName.length →
      deriveOutName outFileName = dropLastN (basename outFileName) 4) := by
  refine ⟨?_, ?_, ?_, ?_⟩
  · unfold fixVariation
    rw [hg, if_neg (by decide : ¬(true = false)), if_pos hpost]
  · unfold fixVariation
    rw [hg, if_neg (by decide : ¬(true = false)), if_pos hpost]
  · intro hnone hlen h5
    unfold deriveOutName dropLastN
    rw [hnone]
    rw [sizeTSub_of_le _ _ h5 hlen]
  · intro p hp hlen hp5
    have hplt : p < outFileName.length := lastIdxP_lt_length _ _ _ hp
    unfold deriveOutName basename dropLastN
    rw [hp]
    show (outFileName.drop (p + 1)).take (sizeTSub (outFileName.length - p) 5) =
      (outFileName.drop (p + 1)).take ((outFileName.drop (p + 1)).length - 4)
    have h1 : 5 ≤ outFileName.length - p := by omega
    have h2 : outFileName.length - p < SIZE_T_MOD := by omega
    rw [sizeTSub_of_le _ _ h1 h2, List.length_drop]
    congr 1

set_option maxRecDepth 10000 in
theorem fixVariation_output_path_witness :
    (fixVariation true stepConvergesAtOnce postAlwaysPasses false (0 : Nat)
      "D/".toList "name9.obj".toList).status = 0 ∧
    deriveOutName "name9.obj".toList = dropLastN "name9.obj".toList 5 ∧
    deriveOutName "d/name.obj".toList = dropLastN (basename "d/name.obj".toList) 4 := by
  have H1 := fixVariation_output_path true stepConvergesAtOnce postAlwaysPasses
    false (0 : Nat) "D/".toList "name9.obj".toList rfl (by decide)
  have H2 := fixVariation_output_path true stepConvergesAtOnce postAlwaysPasses
    false (0 : Nat) "D/".toList "d/name.obj".toList rfl (by decide)
  refine ⟨H1.1, ?_, ?_⟩
  · exact H1.2.2.1 (by decide) (by decide) (by decide)
  · exact H2.2.2.2 1 (by decide) (by decide) (by decide)

/-! ## Retained output buffer (part_001 lines 23, 42-48, 80-86, 106-111)

The process-wide outputString pointer: modelled as the identity of the
currently retained allocation plus the multiset of allocations freed so
far; each string-returning entry point installs a freshly allocated
result buffer. -/

structure BufState where
  retained : Option Nat
  freed : List Nat

/-- Buffer installation performed by WFObjectToString (lines 42-46):
free the retained buffer when present, then retain the new one. -/
def wfObjectToStringInstall (s : BufState) (newBuf : Nat) : BufState :=
  match s.retained with
  | some p => ⟨some newBuf, s.freed ++ [p]⟩
  | none => ⟨some newBuf, s.freed⟩

/-- Buffer installation performed by WFObjectToStrings (lines 80-84):
the same free-then-replace sequence. -/
def wfObjectToStringsInstall (s : BufState) (newBuf : Nat) : BufState :=
  match s.retained with
  | some p => ⟨some newBuf, s.freed ++ [p]⟩
  | none => ⟨some newBuf, s.freed⟩

/-- Buffer installation performed by WFObjectRandomVariations (lines
108-109): the new buffer is retained without any free. -/
def wfObjectRandomVariationsInstall (s : BufState) (newBuf : Nat) : BufState :=
  ⟨some newBuf, s.freed⟩

/-- Claim C9 (code bug evidence): starting from a state retaining buffer
7, WFObjectToString and WFObjectToStrings free 7 before retaining the
new buffer 9, but WFObjectRandomVariations retains 9 while freeing
nothing — the previously retained buffer leaks, violating the
free-then-replace discipline the other two entry points follow. -/
theorem wfObjectRandomVariations_no_free :
    (wfObjectToStringInstall ⟨some 7, []⟩ 9).freed = [7] ∧
    (wfObjectToStringInstall ⟨some 7, []⟩ 9).retained = some 9 ∧
    (wfObjectToStringsInstall ⟨some 7, []⟩ 9).freed = [7] ∧
    (wfObjectRandomVariationsInstall ⟨some 7, []⟩ 9).retained = some 9 ∧
    (wfObjectRandomVariationsInstall ⟨some 7, []⟩ 9).freed = [] :=
  ⟨rfl, rfl, rfl, rfl, rfl⟩
